import Mathlib

/-!
Shallow embedding of the rolling-statistics pipeline of `app.py`
(the only computational code of the repository).

The script, after loading the CSV, executes (lines 24-43):

* drop the `Unnamed: 0` column if present;
* `df["Date"] = pd.to_datetime(df["Date"], errors="coerce")` followed by
  `df.dropna(subset=["Date"])` — rows whose date fails to parse become `NaT`
  and are removed;
* `df["Stock"] = df["Stock"].astype(str).replace(" ", "", regex=True)` —
  every occurrence of the space character `" "` is deleted from each stock id;
* a required-columns check `{Date, Stock, Category, Close} - set(df.columns)`
  that reports the missing set (but only runs after `df["Date"]` and
  `df["Stock"]` have already been accessed);
* `df["SMA_50"]  = df["Close"].rolling(window=50,  min_periods=1).mean()`
* `df["SMA_100"] = df["Close"].rolling(window=100, min_periods=1).mean()`
* `df["Change_%"] = df["Close"].pct_change() * 100`
* `df["Volatility"] = df["Change_%"].rolling(window=20).std()`
  (pandas default: `min_periods = window = 20`, sample std with `ddof = 1`).

All four derived columns are computed over the WHOLE dataframe in input
order: the script performs no `groupby("Stock")` and no sort by date.

Modelling choices:

* prices are exact rationals `ℚ`;
* a parsed date is `Option Int` (`none` = `NaT`, i.e. missing/unparseable);
* IEEE special values produced by `pct_change` (NaN for the first row or a
  `0/0`, signed infinities for division of a nonzero number by a zero
  previous close) are modelled by the inductive `PFloat`;
* `rolling(20).std()` yields NaN when the 20-row window holds fewer than 20
  non-NaN values (`min_periods = 20`) and also when an infinity enters the
  computation; we model the result as `Option ℚ` holding the SQUARE of the
  standard deviation (the sample variance, `ddof = 1`), since the square
  root of a rational is in general irrational; definedness is unaffected
  (a standard deviation of finite samples is defined iff its square is).
-/

/-- IEEE-style value domain for the `Change_%` column: a genuine number, a
NaN, or a signed infinity. -/
inductive PFloat where
  | nan : PFloat
  | posInf : PFloat
  | negInf : PFloat
  | num : ℚ → PFloat
deriving DecidableEq, Repr

/-- Returns `true` exactly on finite numeric values (pandas: non-NaN and finite). -/
def PFloat.isNum : PFloat → Bool
  | .num _ => true
  | _ => false

/-- Numeric value of a finite `PFloat` (junk `0` on specials; only used
under an `isNum` guard). -/
def PFloat.toQ : PFloat → ℚ
  | .num q => q
  | _ => 0

/-- One CSV row after date parsing: `date = none` models `NaT`
(missing or unparseable `Date`). -/
structure Record where
  date : Option Int
  stock : String
  category : String
  close : ℚ
deriving DecidableEq, Repr

/-- One output row: the surviving raw fields plus the four derived columns.
`volSq` is the square of the `Volatility` column (`none` = NaN). -/
structure ERecord where
  date : Int
  stock : String
  category : String
  close : ℚ
  sma50 : ℚ
  sma100 : ℚ
  pct : PFloat
  volSq : Option ℚ
deriving DecidableEq, Repr

/-- Model of `df["Stock"].astype(str).replace(" ", "", regex=True)`: delete every
occurrence of the space character (and only the space character). -/
def removeSpaces (s : String) : String :=
  String.mk (s.data.filter fun ch => ch ≠ ' ')

/-- The trailing window of width at most `w` ending at position `i`:
elements at positions `max 0 (i+1-w) .. i`. -/
def winSlice (w : Nat) (c : List α) (i : Nat) : List α :=
  (c.take (i + 1)).drop (i + 1 - w)

/-- Model of `Close.rolling(window=w, min_periods=1).mean()`: at each position the
arithmetic mean of the window of up to `w` trailing values. -/
def rollingMean (w : Nat) (c : List ℚ) : List ℚ :=
  (List.range c.length).map fun i =>
    let s := winSlice w c i
    s.sum / (s.length : ℚ)

/-- One step of `pct_change() * 100`: previous close `p`, current close `x`.
With `p = 0` the float quotient `(x - 0)/0` is `+inf`, `-inf` or NaN
according to the sign of `x`. -/
def pctStep (p x : ℚ) : PFloat :=
  if p ≠ 0 then .num ((x - p) / p * 100)
  else if 0 < x then .posInf
  else if x < 0 then .negInf
  else .nan

/-- Helper for `pctChange`, carrying the previous close (none before the
first row). -/
def pctChangeAux : Option ℚ → List ℚ → List PFloat
  | _, [] => []
  | none, x :: xs => .nan :: pctChangeAux (some x) xs
  | some p, x :: xs => pctStep p x :: pctChangeAux (some x) xs

/-- Model of `df["Close"].pct_change() * 100` over the whole column: NaN at the first
position, `(c[i]-c[i-1])/c[i-1]*100` afterwards. -/
def pctChange (c : List ℚ) : List PFloat :=
  pctChangeAux none c

/-- Sample variance with `ddof = 1` (n-1 denominator) of a list of
rationals: the square of the sample standard deviation pandas computes. -/
def sampleVar (xs : List ℚ) : ℚ :=
  ((xs.map fun x => (x - xs.sum / (xs.length : ℚ)) ^ 2).sum) / ((xs.length : ℚ) - 1)

/-- Model of `Change_%.rolling(window=20).std()`, squared. pandas defaults to
`min_periods = 20`, so positions `0..18` are NaN; at position `i ≥ 19` the
window is the 20 entries at `i-19 .. i`, and the result is NaN unless all
20 are finite numbers (a NaN in the window drops the observation count
below `min_periods`; an infinity poisons the computation to NaN). -/
def rollingVar20 (ps : List PFloat) : List (Option ℚ) :=
  (List.range ps.length).map fun i =>
    if 19 ≤ i then
      if (winSlice 20 ps i).all PFloat.isNum then
        some (sampleVar ((winSlice 20 ps i).map PFloat.toQ))
      else none
    else none

/-- Line 30 of the script applied to one record: spaces stripped from the
stock id; every other field untouched. -/
def cleanRec (r : Record) : Record :=
  { r with stock := removeSpaces r.stock }

/-- Rows surviving `dropna(subset=["Date"])`, with stock ids cleaned, in
unchanged input order (the script never sorts or groups). -/
def validRecs (rs : List Record) : List Record :=
  (rs.filter fun r => r.date.isSome).map cleanRec

/-- The `Close` column the rolling statistics are computed over. -/
def closesOf (rs : List Record) : List ℚ :=
  (validRecs rs).map Record.close

/-- Glue the surviving rows to the four derived columns, positionally. -/
def zipDer : List Record → List ℚ → List ℚ → List PFloat → List (Option ℚ) → List ERecord
  | r :: rs, a :: as, b :: bs, p :: ps, v :: vs =>
      { date := r.date.getD 0, stock := r.stock, category := r.category,
        close := r.close, sma50 := a, sma100 := b, pct := p, volSq := v }
        :: zipDer rs as bs ps vs
  | _, _, _, _, _ => []

/-- The whole data-preparation and feature-engineering pipeline
(lines 28-43 of `app.py`): drop bad-date rows, clean stock ids, then
compute the four derived columns over the whole surviving frame in input
order. -/
def enrich (rs : List Record) : List ERecord :=
  let v := validRecs rs
  let c := v.map Record.close
  zipDer v (rollingMean 50 c) (rollingMean 100 c) (pctChange c)
    (rollingVar20 (pctChange c))

/-- Errors the loading code can stop with before feature engineering. -/
inductive LoadError where
  | keyError : String → LoadError
  | missingColumns : List String → LoadError
deriving DecidableEq, Repr

/-- The required-columns set of line 33, in a canonical order. -/
def requiredCols : List String := ["Date", "Stock", "Category", "Close"]

/-- Control flow of lines 25-37 over the set of column names: drop
`Unnamed: 0`, access `df["Date"]` (KeyError if absent), access
`df["Stock"]` (KeyError if absent), then the explicit check reporting the
set of required columns that are missing. -/
def checkCols (cols0 : List String) : Except LoadError Unit :=
  let cols := cols0.erase "Unnamed: 0"
  if "Date" ∈ cols then
    if "Stock" ∈ cols then
      let missing := requiredCols.filter fun c => c ∉ cols
      if missing.isEmpty then .ok () else .error (.missingColumns missing)
    else .error (.keyError "Stock")
  else .error (.keyError "Date")

/-- Strip an enriched row back to the four raw columns, as for re-ingestion. -/
def stripRaw (e : ERecord) : Record :=
  { date := some e.date, stock := e.stock, category := e.category, close := e.close }

/-- Sample variance of exactly 20 values, written with the literal `n = 20`,
`n - 1 = 19` of the specification. -/
def sampleVar20 (xs : List ℚ) : ℚ :=
  ((xs.map fun x => (x - xs.sum / 20) ^ 2).sum) / 19

lemma length_rollingMean (w : Nat) (c : List ℚ) :
    (rollingMean w c).length = c.length := by
  simp [rollingMean]

lemma length_pctChangeAux : ∀ (c : List ℚ) (o : Option ℚ),
    (pctChangeAux o c).length = c.length := by
  intro c
  induction c with
  | nil => intro o; cases o <;> rfl
  | cons x xs ih => intro o; cases o <;> simp [pctChangeAux, ih]

lemma length_pctChange (c : List ℚ) : (pctChange c).length = c.length :=
  length_pctChangeAux c none

lemma length_rollingVar20 (ps : List PFloat) :
    (rollingVar20 ps).length = ps.length := by
  simp [rollingVar20]

lemma length_winSlice (w : Nat) (c : List α) (i : Nat) (h : i < c.length) :
    (winSlice w c i).length = min (i + 1) w := by
  simp only [winSlice, List.length_drop, List.length_take]
  omega

lemma zipDer_nil (a b : List ℚ) (p : List PFloat) (v : List (Option ℚ)) :
    zipDer [] a b p v = [] := rfl

lemma zipDer_map_sma50 : ∀ (rs : List Record) (a b : List ℚ) (p : List PFloat)
    (v : List (Option ℚ)), rs.length = a.length → rs.length = b.length →
    rs.length = p.length → rs.length = v.length →
    (zipDer rs a b p v).map (fun e => e.sma50) = a := by
  intro rs
  induction rs with
  | nil =>
    intro a b p v ha _ _ _
    cases a with
    | nil => rfl
    | cons x xs => simp at ha
  | cons r rs ih =>
    intro a b p v ha hb hp hv
    cases a with
    | nil => simp at ha
    | cons a as =>
      cases b with
      | nil => simp at hb
      | cons b bs =>
        cases p with
        | nil => simp at hp
        | cons p ps =>
          cases v with
          | nil => simp at hv
          | cons v vs =>
            simp only [zipDer, List.map_cons, List.cons.injEq]
            exact ⟨trivial, ih as bs ps vs (by simpa using ha) (by simpa using hb)
              (by simpa using hp) (by simpa using hv)⟩

lemma zipDer_map_sma100 : ∀ (rs : List Record) (a b : List ℚ) (p : List PFloat)
    (v : List (Option ℚ)), rs.length = a.length → rs.length = b.length →
    rs.length = p.length → rs.length = v.length →
    (zipDer rs a b p v).map (fun e => e.sma100) = b := by
  intro rs
  induction rs with
  | nil =>
    intro a b p v _ hb _ _
    cases b with
    | nil => rfl
    | cons x xs => simp at hb
  | cons r rs ih =>
    intro a b p v ha hb hp hv
    cases a with
    | nil => simp at ha
    | cons a as =>
      cases b with
      | nil => simp at hb
      | cons b bs =>
        cases p with
        | nil => simp at hp
        | cons p ps =>
          cases v with
          | nil => simp at hv
          | cons v vs =>
            simp only [zipDer, List.map_cons, List.cons.injEq]
            exact ⟨trivial, ih as bs ps vs (by simpa using ha) (by simpa using hb)
              (by simpa using hp) (by simpa using hv)⟩

lemma zipDer_map_pct : ∀ (rs : List Record) (a b : List ℚ) (p : List PFloat)
    (v : List (Option ℚ)), rs.length = a.length → rs.length = b.length →
    rs.length = p.length → rs.length = v.length →
    (zipDer rs a b p v).map (fun e => e.pct) = p := by
  intro rs
  induction rs with
  | nil =>
    intro a b p v _ _ hp _
    cases p with
    | nil => rfl
    | cons x xs => simp at hp
  | cons r rs ih =>
    intro a b p v ha hb hp hv
    cases a with
    | nil => simp at ha
    | cons a as =>
      cases b with
      | nil => simp at hb
      | cons b bs =>
        cases p with
        | nil => simp at hp
        | cons p ps =>
          cases v with
          | nil => simp at hv
          | cons v vs =>
            simp only [zipDer, List.map_cons, List.cons.injEq]
            exact ⟨trivial, ih as bs ps vs (by simpa using ha) (by simpa using hb)
              (by simpa using hp) (by simpa using hv)⟩

lemma zipDer_map_volSq : ∀ (rs : List Record) (a b : List ℚ) (p : List PFloat)
    (v : List (Option ℚ)), rs.length = a.length → rs.length = b.length →
    rs.length = p.length → rs.length = v.length →
    (zipDer rs a b p v).map (fun e => e.volSq) = v := by
  intro rs
  induction rs with
  | nil =>
    intro a b p v _ _ _ hv
    cases v with
    | nil => rfl
    | cons x xs => simp at hv
  | cons r rs ih =>
    intro a b p v ha hb hp hv
    cases a with
    | nil => simp at ha
    | cons a as =>
      cases b with
      | nil => simp at hb
      | cons b bs =>
        cases p with
        | nil => simp at hp
        | cons p ps =>
          cases v with
          | nil => simp at hv
          | cons v vs =>
            simp only [zipDer, List.map_cons, List.cons.injEq]
            exact ⟨trivial, ih as bs ps vs (by simpa using ha) (by simpa using hb)
              (by simpa using hp) (by simpa using hv)⟩

lemma zipDer_map_close : ∀ (rs : List Record) (a b : List ℚ) (p : List PFloat)
    (v : List (Option ℚ)), rs.length = a.length → rs.length = b.length →
    rs.length = p.length → rs.length = v.length →
    (zipDer rs a b p v).map (fun e => e.close) = rs.map (fun r => r.close) := by
  intro rs
  induction rs with
  | nil => intro a b p v _ _ _ _; rfl
  | cons r rs ih =>
    intro a b p v ha hb hp hv
    cases a with
    | nil => simp at ha
    | cons a as =>
      cases b with
      | nil => simp at hb
      | cons b bs =>
        cases p with
        | nil => simp at hp
        | cons p ps =>
          cases v with
          | nil => simp at hv
          | cons v vs =>
            simp only [zipDer, List.map_cons, List.cons.injEq]
            exact ⟨trivial, ih as bs ps vs (by simpa using ha) (by simpa using hb)
              (by simpa using hp) (by simpa using hv)⟩

lemma zipDer_map_stock : ∀ (rs : List Record) (a b : List ℚ) (p : List PFloat)
    (v : List (Option ℚ)), rs.length = a.length → rs.length = b.length →
    rs.length = p.length → rs.length = v.length →
    (zipDer rs a b p v).map (fun e => e.stock) = rs.map (fun r => r.stock) := by
  intro rs
  induction rs with
  | nil => intro a b p v _ _ _ _; rfl
  | cons r rs ih =>
    intro a b p v ha hb hp hv
    cases a with
    | nil => simp at ha
    | cons a as =>
      cases b with
      | nil => simp at hb
      | cons b bs =>
        cases p with
        | nil => simp at hp
        | cons p ps =>
          cases v with
          | nil => simp at hv
          | cons v vs =>
            simp only [zipDer, List.map_cons, List.cons.injEq]
            exact ⟨trivial, ih as bs ps vs (by simpa using ha) (by simpa using hb)
              (by simpa using hp) (by simpa using hv)⟩

lemma zipDer_length : ∀ (rs : List Record) (a b : List ℚ) (p : List PFloat)
    (v : List (Option ℚ)), rs.length = a.length → rs.length = b.length →
    rs.length = p.length → rs.length = v.length →
    (zipDer rs a b p v).length = rs.length := by
  intro rs
  induction rs with
  | nil => intro a b p v _ _ _ _; rfl
  | cons r rs ih =>
    intro a b p v ha hb hp hv
    cases a with
    | nil => simp at ha
    | cons a as =>
      cases b with
      | nil => simp at hb
      | cons b bs =>
        cases p with
        | nil => simp at hp
        | cons p ps =>
          cases v with
          | nil => simp at hv
          | cons v vs =>
            simp only [zipDer, List.length_cons]
            rw [ih as bs ps vs (by simpa using ha) (by simpa using hb)
              (by simpa using hp) (by simpa using hv)]

lemma enrich_map_sma50 (rs : List Record) :
    (enrich rs).map (fun e => e.sma50) = rollingMean 50 (closesOf rs) := by
  have h := zipDer_map_sma50 (validRecs rs) (rollingMean 50 (closesOf rs))
    (rollingMean 100 (closesOf rs)) (pctChange (closesOf rs))
    (rollingVar20 (pctChange (closesOf rs)))
    (by simp [length_rollingMean, closesOf]) (by simp [length_rollingMean, closesOf])
    (by simp [length_pctChange, closesOf])
    (by simp [length_rollingVar20, length_pctChange, closesOf])
  simpa [enrich, closesOf] using h

lemma enrich_map_sma100 (rs : List Record) :
    (enrich rs).map (fun e => e.sma100) = rollingMean 100 (closesOf rs) := by
  have h := zipDer_map_sma100 (validRecs rs) (rollingMean 50 (closesOf rs))
    (rollingMean 100 (closesOf rs)) (pctChange (closesOf rs))
    (rollingVar20 (pctChange (closesOf rs)))
    (by simp [length_rollingMean, closesOf]) (by simp [length_rollingMean, closesOf])
    (by simp [length_pctChange, closesOf])
    (by simp [length_rollingVar20, length_pctChange, closesOf])
  simpa [enrich, closesOf] using h

lemma enrich_map_pct (rs : List Record) :
    (enrich rs).map (fun e => e.pct) = pctChange (closesOf rs) := by
  have h := zipDer_map_pct (validRecs rs) (rollingMean 50 (closesOf rs))
    (rollingMean 100 (closesOf rs)) (pctChange (closesOf rs))
    (rollingVar20 (pctChange (closesOf rs)))
    (by simp [length_rollingMean, closesOf]) (by simp [length_rollingMean, closesOf])
    (by simp [length_pctChange, closesOf])
    (by simp [length_rollingVar20, length_pctChange, closesOf])
  simpa [enrich, closesOf] using h

lemma enrich_map_volSq (rs : List Record) :
    (enrich rs).map (fun e => e.volSq) = rollingVar20 (pctChange (closesOf rs)) := by
  have h := zipDer_map_volSq (validRecs rs) (rollingMean 50 (closesOf rs))
    (rollingMean 100 (closesOf rs)) (pctChange (closesOf rs))
    (rollingVar20 (pctChange (closesOf rs)))
    (by simp [length_rollingMean, closesOf]) (by simp [length_rollingMean, closesOf])
    (by simp [length_pctChange, closesOf])
    (by simp [length_rollingVar20, length_pctChange, closesOf])
  simpa [enrich, closesOf] using h

lemma enrich_map_close (rs : List Record) :
    (enrich rs).map (fun e => e.close) = closesOf rs := by
  have h := zipDer_map_close (validRecs rs) (rollingMean 50 (closesOf rs))
    (rollingMean 100 (closesOf rs)) (pctChange (closesOf rs))
    (rollingVar20 (pctChange (closesOf rs)))
    (by simp [length_rollingMean, closesOf]) (by simp [length_rollingMean, closesOf])
    (by simp [length_pctChange, closesOf])
    (by simp [length_rollingVar20, length_pctChange, closesOf])
  simpa [enrich, closesOf] using h

lemma enrich_map_stock (rs : List Record) :
    (enrich rs).map (fun e => e.stock) = (validRecs rs).map (fun r => r.stock) := by
  have h := zipDer_map_stock (validRecs rs) (rollingMean 50 (closesOf rs))
    (rollingMean 100 (closesOf rs)) (pctChange (closesOf rs))
    (rollingVar20 (pctChange (closesOf rs)))
    (by simp [length_rollingMean, closesOf]) (by simp [length_rollingMean, closesOf])
    (by simp [length_pctChange, closesOf])
    (by simp [length_rollingVar20, length_pctChange, closesOf])
  simpa [enrich, closesOf] using h

lemma length_enrich (rs : List Record) :
    (enrich rs).length = (validRecs rs).length := by
  have h := zipDer_length (validRecs rs) (rollingMean 50 (closesOf rs))
    (rollingMean 100 (closesOf rs)) (pctChange (closesOf rs))
    (rollingVar20 (pctChange (closesOf rs)))
    (by simp [length_rollingMean, closesOf]) (by simp [length_rollingMean, closesOf])
    (by simp [length_pctChange, closesOf])
    (by simp [length_rollingVar20, length_pctChange, closesOf])
  simpa [enrich, closesOf] using h

lemma getD_range_map (f : ℕ → α) (n i : ℕ) (d : α) (h : i < n) :
    ((List.range n).map f).getD i d = f i := by
  rw [List.getD_eq_getElem?_getD]
  simp [List.getElem?_map, List.getElem?_range, h]

lemma rollingMean_getD (w : Nat) (c : List ℚ) (i : Nat) (h : i < c.length) :
    (rollingMean w c).getD i 0 = (winSlice w c i).sum / ((min (i + 1) w : ℕ) : ℚ) := by
  rw [rollingMean, getD_range_map _ _ _ _ h]
  show (winSlice w c i).sum / ((winSlice w c i).length : ℚ) = _
  rw [length_winSlice w c i h]

lemma pctChangeAux_getD : ∀ (c : List ℚ) (o : Option ℚ) (i : Nat), i < c.length →
    (pctChangeAux o c).getD i PFloat.nan =
      (match i, o with
        | 0, none => PFloat.nan
        | 0, some p => pctStep p (c.getD 0 0)
        | j + 1, _ => pctStep (c.getD j 0) (c.getD (j + 1) 0)) := by
  intro c
  induction c with
  | nil => intro o i h; simp at h
  | cons x xs ih =>
    intro o i h
    cases i with
    | zero =>
      cases o with
      | none => rfl
      | some p => rfl
    | succ j =>
      have hj : j < xs.length := by simpa using h
      cases o with
      | none =>
        have hx := ih (some x) j hj
        cases j with
        | zero => simpa [pctChangeAux] using hx
        | succ k => simpa [pctChangeAux] using hx
      | some p =>
        have hx := ih (some x) j hj
        cases j with
        | zero => simpa [pctChangeAux, pctStep] using hx
        | succ k => simpa [pctChangeAux] using hx

lemma pctChange_getD_zero (c : List ℚ) :
    (pctChange c).getD 0 PFloat.nan = PFloat.nan := by
  cases c with
  | nil => rfl
  | cons x xs => rfl

lemma pctChange_getD_succ (c : List ℚ) (i : Nat) (h : i + 1 < c.length) :
    (pctChange c).getD (i + 1) PFloat.nan = pctStep (c.getD i 0) (c.getD (i + 1) 0) := by
  have hx := pctChangeAux_getD c none (i + 1) h
  simpa using hx

lemma rollingMean_eq_spec (w : Nat) (c : List ℚ) :
    rollingMean w c = (List.range c.length).map
      (fun i => (winSlice w c i).sum / ((min (i + 1) w : ℕ) : ℚ)) := by
  unfold rollingMean
  apply List.map_congr_left
  intro i hi
  have h : i < c.length := List.mem_range.mp hi
  show (winSlice w c i).sum / ((winSlice w c i).length : ℚ) = _
  rw [length_winSlice w c i h]

lemma rollingVar20_getD (ps : List PFloat) (i : Nat) (h : i < ps.length) :
    (rollingVar20 ps).getD i none =
      if 19 ≤ i then
        (if (winSlice 20 ps i).all PFloat.isNum then
          some (sampleVar ((winSlice 20 ps i).map PFloat.toQ))
        else none)
      else none := by
  rw [rollingVar20, getD_range_map _ _ _ _ h]

lemma sampleVar_twenty (xs : List ℚ) (h : xs.length = 20) :
    sampleVar xs = sampleVar20 xs := by
  rw [sampleVar, sampleVar20, h]
  norm_num

lemma validRecs_filter (rs : List Record) :
    validRecs (rs.filter fun r => r.date.isSome) = validRecs rs := by
  simp [validRecs, List.filter_filter]

lemma closesOf_strip (rs : List Record) :
    closesOf ((enrich rs).map stripRaw) = closesOf rs := by
  have hfil : ((enrich rs).map stripRaw).filter (fun r => r.date.isSome)
      = (enrich rs).map stripRaw := by
    rw [List.filter_eq_self]
    intro a ha
    rcases List.mem_map.mp ha with ⟨e, _, rfl⟩
    rfl
  have h1 : closesOf ((enrich rs).map stripRaw)
      = (enrich rs).map (fun e => e.close) := by
    rw [closesOf, validRecs, hfil, List.map_map, List.map_map]
    rfl
  rw [h1, enrich_map_close]

/-- Claim C1, code-bug evidence: derived fields do NOT depend only on the
stock's own records. Interleaving one row of stock B between two rows of
stock A changes A's `SMA_50`: A's second row gets the whole-frame mean
`(10 + 1000 + 20)/3 = 1030/3`, while running A's rows alone gives
`(10 + 20)/2 = 15` (and `15 < 1030/3` shows the two runs disagree). The
code computes every rolling window over the whole dataframe without
grouping by stock. -/
theorem enrich_cross_stock_leak :
    ((enrich [⟨some 1, "A", "X", 10⟩, ⟨some 2, "B", "X", 1000⟩, ⟨some 3, "A", "X", 20⟩]).filter
        (fun e => e.stock == "A")).map (fun e => e.sma50) = [10, 1030 / 3]
    ∧ (enrich [⟨some 1, "A", "X", 10⟩, ⟨some 3, "A", "X", 20⟩]).map (fun e => e.sma50)
        = [10, 15]
    ∧ (15 : ℚ) < 1030 / 3 := by
  refine ⟨?_, ?_, by norm_num⟩ <;>
  · simp [enrich, validRecs, cleanRec, closesOf, rollingMean, pctChange, pctChangeAux,
      pctStep, rollingVar20, winSlice, zipDer, removeSpaces, sampleVar, List.range_succ]
    norm_num

/-- Claim C2, code-bug evidence: `enrich` neither groups nor sorts by date
before computing. With a single stock whose two rows arrive in descending
date order, the chronologically first row (date 1) receives a DEFINED
`Change_%` and the chronologically last row (date 2) the undefined one;
the pre-sorted input produces the opposite assignment, so the derived
values are not those of a sorted, grouped run. -/
theorem enrich_no_sort_or_group :
    (enrich [⟨some 2, "A", "X", 10⟩, ⟨some 1, "A", "X", 20⟩]).map
        (fun e => (e.date, e.pct.isNum)) = [(2, false), (1, true)]
    ∧ (enrich [⟨some 1, "A", "X", 20⟩, ⟨some 2, "A", "X", 10⟩]).map
        (fun e => (e.date, e.pct.isNum)) = [(1, false), (2, true)] := by
  constructor <;> decide

/-- Claim C3 counterexample: `sma_50` is NOT the mean of the stock's own
trailing closes for every stock group. With a B row interleaved between
two A rows, A's second row gets the whole-frame mean
`(10 + 400 + 30)/3 = 440/3`, not the per-group mean `(10 + 30)/2 = 20`. -/
theorem sma_not_per_group :
    ((enrich [⟨some 1, "A", "X", 10⟩, ⟨some 2, "B", "X", 400⟩, ⟨some 3, "A", "X", 30⟩]).filter
        (fun e => e.stock == "A")).map (fun e => e.sma50) = [10, 440 / 3]
    ∧ (20 : ℚ) < 440 / 3 := by
  refine ⟨?_, by norm_num⟩
  simp [enrich, validRecs, cleanRec, closesOf, rollingMean, pctChange, pctChangeAux,
    pctStep, rollingVar20, winSlice, zipDer, removeSpaces, sampleVar, List.range_succ]
  norm_num

/-- Claim C3 amended: the shrinking-window mean formula holds, but over the
WHOLE date-valid record sequence in input order rather than per stock
group: at every position `i`, `SMA_50` equals the arithmetic mean of the
last `min(i+1, 50)` closes of the whole frame ending at `i` (`SMA_100`
analogously with window 100), and the value at position 0 equals the
close at position 0. -/
theorem sma_shrinking_window (rs : List Record) :
    ((enrich rs).map fun e => e.sma50)
        = (List.range (closesOf rs).length).map
            (fun i => (winSlice 50 (closesOf rs) i).sum / ((min (i + 1) 50 : ℕ) : ℚ))
    ∧ ((enrich rs).map fun e => e.sma100)
        = (List.range (closesOf rs).length).map
            (fun i => (winSlice 100 (closesOf rs) i).sum / ((min (i + 1) 100 : ℕ) : ℚ))
    ∧ ((enrich rs).map fun e => e.sma50).getD 0 0 = (closesOf rs).getD 0 0 := by
  refine ⟨?_, ?_, ?_⟩
  · rw [enrich_map_sma50, rollingMean_eq_spec]
  · rw [enrich_map_sma100, rollingMean_eq_spec]
  · rw [enrich_map_sma50]
    cases hc : closesOf rs with
    | nil => rfl
    | cons c0 cs =>
      rw [rollingMean_getD 50 (c0 :: cs) 0 (by simp)]
      simp [winSlice]

/-- Claim C4 counterexample: `pct_change` is not undefined at the first row
of EVERY stock group — only at position 0 of the whole frame. The first
row of stock B (index 0 within its group) receives a defined value,
computed from stock A's preceding close. -/
theorem pct_change_not_per_group :
    (enrich [⟨some 1, "A", "X", 100⟩, ⟨some 2, "B", "X", 200⟩]).map
        (fun e => (e.stock, e.pct.isNum)) = [("A", false), ("B", true)] := by
  decide

/-- Claim C4 amended: over the WHOLE date-valid record sequence in input
order (not per stock group), `pct_change` is undefined exactly at
position 0 and, for a position `i + 1` whose previous close is nonzero,
equals `(close[i+1] - close[i]) / close[i] * 100`. -/
theorem pct_change_formula (rs : List Record) (i : Nat)
    (h : i + 1 < (enrich rs).length) (hz : (closesOf rs).getD i 0 ≠ 0) :
    ((enrich rs).map fun e => e.pct).getD (i + 1) PFloat.nan
        = PFloat.num (((closesOf rs).getD (i + 1) 0 - (closesOf rs).getD i 0)
            / (closesOf rs).getD i 0 * 100)
    ∧ ((enrich rs).map fun e => e.pct).getD 0 PFloat.nan = PFloat.nan := by
  have hlen : (enrich rs).length = (closesOf rs).length := by
    rw [length_enrich]
    simp [closesOf]
  constructor
  · rw [enrich_map_pct, pctChange_getD_succ _ _ (hlen ▸ h)]
    unfold pctStep
    rw [if_pos hz]
  · rw [enrich_map_pct, pctChange_getD_zero]

/-- Claim C4 witness: the literal example of the specification — closes
100, 110, 99 (all one stock, valid dates) give an undefined `pct_change`
at position 0 and the value `(110 - 100)/100 * 100` at position 1. -/
theorem pct_change_formula_witness :
    ((enrich [⟨some 1, "A", "X", 100⟩, ⟨some 2, "A", "X", 110⟩, ⟨some 3, "A", "X", 99⟩]).map
          fun e => e.pct).getD 1 PFloat.nan
        = PFloat.num
            (((closesOf [⟨some 1, "A", "X", 100⟩, ⟨some 2, "A", "X", 110⟩,
                  ⟨some 3, "A", "X", 99⟩]).getD 1 0
              - (closesOf [⟨some 1, "A", "X", 100⟩, ⟨some 2, "A", "X", 110⟩,
                  ⟨some 3, "A", "X", 99⟩]).getD 0 0)
            / (closesOf [⟨some 1, "A", "X", 100⟩, ⟨some 2, "A", "X", 110⟩,
                  ⟨some 3, "A", "X", 99⟩]).getD 0 0 * 100)
    ∧ ((enrich [⟨some 1, "A", "X", 100⟩, ⟨some 2, "A", "X", 110⟩,
          ⟨some 3, "A", "X", 99⟩]).map fun e => e.pct).getD 0 PFloat.nan = PFloat.nan :=
  pct_change_formula
    [⟨some 1, "A", "X", 100⟩, ⟨some 2, "A", "X", 110⟩, ⟨some 3, "A", "X", 99⟩]
    0 (by decide) (by decide)

/-- Claim C5 counterexample: with closes 100, 110, 99 the trailing window
at index 2 contains two defined `pct_change` samples, yet `Volatility` is
undefined at every position — pandas `rolling(20).std()` requires a full
window of 20 observations (`min_periods = 20`), not merely 2 defined
samples. -/
theorem volatility_undefined_with_two_samples :
    ((enrich [⟨some 1, "A", "X", 100⟩, ⟨some 2, "A", "X", 110⟩, ⟨some 3, "A", "X", 99⟩]).map
        fun e => e.volSq) = [none, none, none]
    ∧ ((winSlice 20 (pctChange [100, 110, 99]) 2).filter PFloat.isNum).length = 2 := by
  constructor <;> decide

/-- Claim C5 amended: `Volatility` at position `i` of the whole date-valid
sequence is defined iff `i ≥ 19` and all 20 `pct_change` entries of the
window `[i-19 .. i]` are defined finite numbers (pandas
`min_periods = 20`), and then its square equals the sample variance
(denominator `n - 1 = 19`) of those 20 values. -/
theorem volatility20_window (rs : List Record) (i : Nat) (h : i < (enrich rs).length) :
    ((enrich rs).map fun e => e.volSq).getD i none
      = if 19 ≤ i ∧ (winSlice 20 (pctChange (closesOf rs)) i).all PFloat.isNum
        then some (sampleVar20 ((winSlice 20 (pctChange (closesOf rs)) i).map PFloat.toQ))
        else none := by
  have hlen : i < (pctChange (closesOf rs)).length := by
    rw [length_pctChange]
    rw [length_enrich] at h
    simpa [closesOf] using h
  rw [enrich_map_volSq, rollingVar20_getD _ _ hlen]
  by_cases h19 : 19 ≤ i
  · by_cases hall : (winSlice 20 (pctChange (closesOf rs)) i).all PFloat.isNum
    · rw [if_pos h19, if_pos hall, if_pos ⟨h19, hall⟩]
      congr 1
      apply sampleVar_twenty
      rw [List.length_map, length_winSlice _ _ _ hlen]
      omega
    · rw [if_pos h19, if_neg hall, if_neg]
      rintro ⟨_, hc⟩
      exact hall hc
  · rw [if_neg h19, if_neg]
    rintro ⟨hc, _⟩
    exact h19 hc

/-- Twenty-one rows of one stock at a constant close of 5: enough data for
the first defined `Volatility` at position 20. -/
def rs21 : List Record :=
  (List.range 21).map fun k => ⟨some (k : Int), "A", "X", 5⟩

/-- Claim C5 witness: on 21 constant-price rows, position 20 satisfies the
hypotheses and the window characterisation applies there. -/
theorem volatility20_window_witness :
    ((enrich rs21).map fun e => e.volSq).getD 20 none
      = if 19 ≤ 20 ∧ (winSlice 20 (pctChange (closesOf rs21)) 20).all PFloat.isNum
        then some (sampleVar20 ((winSlice 20 (pctChange (closesOf rs21)) 20).map PFloat.toQ))
        else none :=
  volatility20_window rs21 20 (by decide)

/-- Claim C6: rows with a missing or unparseable date are excluded before
anything is computed — `enrich` of any input equals `enrich` of its
date-valid rows alone (so excluded rows shift no window for the
remaining records), and every valid row yields exactly one output row. -/
theorem malformed_dates_excluded (rs : List Record) :
    enrich rs = enrich (rs.filter fun r => r.date.isSome)
    ∧ (enrich rs).length = (rs.filter fun r => r.date.isSome).length := by
  constructor
  · simp only [enrich]
    rw [validRecs_filter]
  · rw [length_enrich]
    simp [validRecs]

/-- Claim C7, code-bug evidence: a record whose predecessor has close 0
receives the infinite sentinel `+inf` for `Change_%`, not an explicit
undefined value: closes 0 then 100 give NaN then `+inf`. -/
theorem zero_close_yields_infinity :
    (enrich [⟨some 1, "A", "X", 0⟩, ⟨some 2, "A", "X", 100⟩]).map (fun e => e.pct)
      = [PFloat.nan, PFloat.posInf] := by
  decide

/-- Claim C8 counterexample: with the `Date` column absent the program does
not report the set of missing columns — line 28 accesses `df["Date"]`
before the check of lines 33-37 runs, so it aborts with a key error
naming only `Date`. -/
theorem missing_date_gives_key_error :
    checkCols ["Stock", "Category", "Close"] = .error (.keyError "Date") := by
  rfl

/-- Claim C8 amended: the named-set report is produced only when `Date` and
`Stock` are present; then the check fails fast naming exactly the missing
ones among `Category` and `Close` (and passes when none are missing),
before any rolling computation. When `Date` or `Stock` is absent the
program aborts earlier with a key error for that single column. -/
theorem check_reports_missing (cols : List String) (hd : "Date" ∈ cols)
    (hs : "Stock" ∈ cols) (hu : "Unnamed: 0" ∉ cols) :
    checkCols cols
      = if "Category" ∈ cols then
          (if "Close" ∈ cols then .ok ()
           else .error (.missingColumns ["Close"]))
        else
          (if "Close" ∈ cols then .error (.missingColumns ["Category"])
           else .error (.missingColumns ["Category", "Close"])) := by
  have he : cols.erase "Unnamed: 0" = cols := List.erase_of_not_mem hu
  by_cases hcat : "Category" ∈ cols <;> by_cases hcl : "Close" ∈ cols <;>
    simp [checkCols, he, requiredCols, hd, hs, hcat, hcl]

/-- Claim C8 witness: a table holding only `Date` and `Stock` is reported
with the full missing set, `Category` and `Close`. -/
theorem check_reports_missing_witness :
    checkCols ["Date", "Stock"]
      = if "Category" ∈ (["Date", "Stock"] : List String) then
          (if "Close" ∈ (["Date", "Stock"] : List String) then .ok ()
           else .error (.missingColumns ["Close"]))
        else
          (if "Close" ∈ (["Date", "Stock"] : List String) then
            .error (.missingColumns ["Category"])
           else .error (.missingColumns ["Category", "Close"])) :=
  check_reports_missing ["Date", "Stock"] (by decide) (by decide) (by decide)

/-- Claim C9: `enrich` is idempotent on its own output — stripping the
enriched rows back to the four raw columns and running `enrich` again
reproduces all four derived columns unchanged. -/
theorem enrich_idempotent (rs : List Record) :
    ((enrich ((enrich rs).map stripRaw)).map fun e => e.sma50)
        = ((enrich rs).map fun e => e.sma50)
    ∧ ((enrich ((enrich rs).map stripRaw)).map fun e => e.sma100)
        = ((enrich rs).map fun e => e.sma100)
    ∧ ((enrich ((enrich rs).map stripRaw)).map fun e => e.pct)
        = ((enrich rs).map fun e => e.pct)
    ∧ ((enrich ((enrich rs).map stripRaw)).map fun e => e.volSq)
        = ((enrich rs).map fun e => e.volSq) := by
  have hc := closesOf_strip rs
  exact ⟨by rw [enrich_map_sma50, enrich_map_sma50, hc],
    by rw [enrich_map_sma100, enrich_map_sma100, hc],
    by rw [enrich_map_pct, enrich_map_pct, hc],
    by rw [enrich_map_volSq, enrich_map_volSq, hc]⟩

/-- Claim C10 counterexample: only the space character is removed, not
every whitespace character — a tab inside a stock id survives the
cleaning untouched, so two ids differing by a tab are not merged. -/
theorem tab_survives_stock_cleaning :
    removeSpaces "A\tB" = "A\tB" ∧ Char.isWhitespace '\t' = true
    ∧ ("A\tB").data.contains '\t' = true
    ∧ (removeSpaces "A\tB" == "AB") = false := by
  refine ⟨?_, ?_, ?_, ?_⟩ <;> decide

/-- Claim C10 amended: before any computation every SPACE character
(U+0020, not every whitespace character) is removed from each surviving
stock id — the output stock column is the space-stripped stock column of
the date-valid input (so ids differing only in spaces merge, and output
ids may differ from input ones); e.g. both `"TCS "` and `"T CS"` become
`"TCS"`, and no space ever remains. -/
theorem stock_space_stripping (rs : List Record) :
    ((enrich rs).map fun e => e.stock)
        = ((rs.filter fun r => r.date.isSome).map fun r => removeSpaces r.stock)
    ∧ removeSpaces "TCS " = "TCS" ∧ removeSpaces "T CS" = "TCS"
    ∧ ∀ s : String, (removeSpaces s).data.all (fun ch => ch ≠ ' ') = true := by
  refine ⟨?_, by decide, by decide, ?_⟩
  · rw [enrich_map_stock]
    simp [validRecs, cleanRec, List.map_map, Function.comp]
  · intro s
    simp only [removeSpaces, List.all_eq_true]
    intro ch hch
    have := (List.mem_filter.mp hch).2
    simpa using this
